import Mathlib

/-!
Shallow embedding of `src/smartcab/agent.py` (class `LearningAgent`)
and proofs about it.

Modelling conventions:
* Python floats are modelled as `ℚ` (Q-table values, `alpha`, rewards)
  except `epsilon`, which is written by `reset` as `|cos (alpha * t)|`
  and is therefore modelled as `ℝ`.
* Python's `random.choice(lst)` is modelled by an arbitrary index `c : ℕ`
  reduced modulo the list length, so "for some random draw" becomes
  "for some `c`".
* The program runs under CPython 2 (the original Udacity project).  In
  `choose_action` the source stores the *function object* `random.random`
  (no call parentheses) in `comp` and tests `comp < self.epsilon`; under
  CPython 2's mixed-type ordering a number compares below any
  non-numeric object, so that test is `False` for every `epsilon` and
  the exploration branch is unreachable.  The embedding reproduces this
  by omitting the dead branch (see `choose_action`).
* Python dictionaries require hashable keys: indexing a `dict` with a
  `list` raises `TypeError`.  `build_state` produces a Python *list*
  (the comprehension on line 54 replaces the tuple of line 52), so this
  distinction is observable and is modelled by `PyKey` together with
  `PyKey.hashable`.
-/

namespace Smartcab

/-- The four actions of the smartcab: Python's
`[None, 'forward', 'left', 'right']`.  `idle` stands for Python `None`. -/
inductive Action where
  | idle
  | forward
  | left
  | right
deriving DecidableEq, Repr

/-- Iteration order of the per-state dict
`{None: 0.0, 'forward': 0.0, 'left': 0.0, 'right': 0.0}` (Python dicts
iterate in insertion order). -/
def actionOrder : List Action := [Action.idle, Action.forward, Action.left, Action.right]

/-- Modelled from the spec: `environment.valid_actions` (the file
`environment.py` is not part of `src/`); §6 of the spec fixes it to the
list of the four actions. -/
def valid_actions : List Action := [Action.idle, Action.forward, Action.left, Action.right]

/-- A Python value usable as a state key: the 4-tuple built on line 52
of `agent.py`, or the 4-element list produced by the comprehension on
line 54.  Components are the percept strings or Python `None`. -/
inductive PyKey where
  | tuple (a b c d : Option String)
  | list (a b c d : Option String)
deriving DecidableEq, Repr

/-- Python hashability of a state key: tuples of strings/None are
hashable, lists never are (`hash(list)` raises `TypeError`). -/
def PyKey.hashable : PyKey → Bool
  | .tuple _ _ _ _ => true
  | .list _ _ _ _ => false

/-- One row of the Q-table: the inner dict
`{None: 0.0, 'forward': 0.0, 'left': 0.0, 'right': 0.0}`. -/
structure QRow where
  idle : ℚ
  forward : ℚ
  left : ℚ
  right : ℚ
deriving DecidableEq, Repr

/-- Read `self.Q[state][action]`. -/
def QRow.get (r : QRow) : Action → ℚ
  | .idle => r.idle
  | .forward => r.forward
  | .left => r.left
  | .right => r.right

/-- Write `self.Q[state][action] = v`. -/
def QRow.set (r : QRow) : Action → ℚ → QRow
  | .idle, v => { r with idle := v }
  | .forward, v => { r with forward := v }
  | .left, v => { r with left := v }
  | .right, v => { r with right := v }

/-- The values of a row in dict-iteration order. -/
def QRow.vals (r : QRow) : List ℚ := [r.idle, r.forward, r.left, r.right]

/-- The row created by `createQ` for a fresh state. -/
def freshRow : QRow := ⟨0, 0, 0, 0⟩

/-- The table `self.Q`: a Python dict from state keys to rows, modelled as an
association list (insertion order preserved, as in CPython). -/
def QTable := List (PyKey × QRow)

/-- Dict lookup (`Q[state]` / `Q.get(state)` after the hashability
check). -/
def qlookup : QTable → PyKey → Option QRow
  | [], _ => none
  | (k, v) :: rest, s => if k = s then some v else qlookup rest s

/-- Dict assignment `Q[state] = row`: replace in place if the key is
present, append otherwise. -/
def qinsert : QTable → PyKey → QRow → QTable
  | [], s, row => [(s, row)]
  | (k, v) :: rest, s, row =>
      if k = s then (s, row) :: rest else (k, v) :: qinsert rest s row

/-- Python exceptions that the embedded code can raise. -/
inductive PyError where
  | keyError
  | typeError
deriving DecidableEq, Repr

/-- The mutable attributes of a `LearningAgent` (collaborators `env` and
`planner` are external and appear as explicit inputs to the
operations). -/
structure AgentState where
  learning : Bool
  Q : QTable
  epsilon : ℝ
  alpha : ℚ
  t : ℕ
  state : Option PyKey
  next_waypoint : Option String

/-- Constructor `LearningAgent.__init__`: `Q = dict()`, `t = 0`; `state` and
`next_waypoint` start unset (modelled as `none`). -/
def LearningAgent.init (learning : Bool) (epsilon : ℝ) (alpha : ℚ) : AgentState :=
  { learning := learning, Q := [], epsilon := epsilon, alpha := alpha, t := 0,
    state := none, next_waypoint := none }

/-- Method `reset(destination, testing)` (lines 25-39).  The pass-through call
`planner.route_to(destination)` touches only the external planner. -/
noncomputable def reset (ag : AgentState) (testing : Bool) : AgentState :=
  if testing then
    { ag with epsilon := 0, alpha := 0 }
  else
    { ag with t := ag.t + 1,
              epsilon := |Real.cos ((ag.alpha : ℝ) * ((ag.t + 1 : ℕ) : ℝ))| }

/-- Method `build_state` (lines 41-55).  Line 52 builds the 4-tuple
`(waypoint, inputs['right'], inputs['left'], inputs['oncoming'])`; the
comprehension `state = [buildString(s) for s in state]` on line 54 then
rebuilds it as a Python *list*, applying
`buildString = lambda s: None if s is None else str(s)` (the identity on
the string/None percept values).  The deadline is read (line 49) but
unused. -/
def build_state (waypoint right left oncoming : Option String) (_deadline : ℤ) : PyKey :=
  PyKey.list waypoint right left oncoming

/-- The loop of `get_maxQ` (lines 60-63): `maxQ = float('-inf')`, then a
strict-improvement pass over the row values; `⊥` plays `float('-inf')`. -/
def pyMax (vs : List ℚ) : WithBot ℚ :=
  vs.foldl (fun m v => if m < (v : WithBot ℚ) then (v : WithBot ℚ) else m) ⊥

/-- Method `get_maxQ(state)` (lines 57-64).  `self.Q[state]` raises `TypeError`
on an unhashable key and `KeyError` on a missing one. -/
def get_maxQ (ag : AgentState) (state : PyKey) : Except PyError (WithBot ℚ) :=
  if state.hashable then
    match qlookup ag.Q state with
    | none => .error .keyError
    | some row => .ok (pyMax row.vals)
  else .error .typeError

/-- Method `createQ(state)` (lines 66-71):
`if self.learning: self.Q[state] = self.Q.get(state, {None: 0.0, ...})`.
Returns the agent after the call together with the exception raised, if
any (mutations made before a raise persist). -/
def createQ (ag : AgentState) (state : PyKey) : AgentState × Option PyError :=
  if ag.learning then
    if state.hashable then
      ({ ag with Q := qinsert ag.Q state ((qlookup ag.Q state).getD freshRow) }, none)
    else (ag, some .typeError)
  else (ag, none)

/-- The list built by the loop on lines 89-92 of `choose_action`:
`for a in self.Q[state]: if maxQ == self.Q[state][a]: valid_actions.append(a)`. -/
def bestActions (row : QRow) : List Action :=
  actionOrder.filter fun a => decide (pyMax row.vals = ((row.get a : ℚ) : WithBot ℚ))

/-- Python `random.choice(xs)`: a uniform draw, modelled by an arbitrary index
`c` taken modulo the length (`xs` is never empty at the call sites). -/
def pyChoice (xs : List Action) (c : ℕ) : Action :=
  xs.getD (c % xs.length) Action.idle

/-- Method `choose_action(state)` (lines 73-96).  It first assigns
`self.state = state` and `self.next_waypoint = planner.next_waypoint()`.
Line 84 stores the function object `random.random` in `comp` (no call),
so `comp < self.epsilon` on line 86 is `False` for every `epsilon`
(CPython 2 orders numbers below non-numeric objects) and the
exploration branch on line 87 is dead code; in learning mode the
exploitation branch always runs. -/
def choose_action (ag : AgentState) (state : PyKey) (waypoint : Option String)
    (c : ℕ) : AgentState × Except PyError Action :=
  let ag := { ag with state := some state, next_waypoint := waypoint }
  if ag.learning then
    if state.hashable then
      match qlookup ag.Q state with
      | none => (ag, .error .keyError)
      | some row => (ag, .ok (pyChoice (bestActions row) c))
    else (ag, .error .typeError)
  else (ag, .ok (pyChoice valid_actions c))

/-- Method `learn(state, action, reward)` (lines 98-105):
`self.Q[state][action] += self.alpha * (reward - self.Q[state][action])`
when learning. -/
def learn (ag : AgentState) (state : PyKey) (action : Action) (reward : ℚ) :
    AgentState × Option PyError :=
  if ag.learning then
    if state.hashable then
      match qlookup ag.Q state with
      | none => (ag, some .keyError)
      | some row =>
          let row' := row.set action (row.get action + ag.alpha * (reward - row.get action))
          ({ ag with Q := qinsert ag.Q state row' }, none)
    else (ag, some .typeError)
  else (ag, none)

/-- Method `update()` (lines 107-118): build the state, ensure it in the
Q-table, choose an action, act (the environment's reward arrives as the
input `reward`), learn.  An exception aborts the remaining steps but
keeps the mutations already made. -/
def update (ag : AgentState) (waypoint right left oncoming : Option String)
    (deadline : ℤ) (reward : ℚ) (c : ℕ) : AgentState × Option PyError :=
  let state := build_state waypoint right left oncoming deadline
  match createQ ag state with
  | (ag1, some e) => (ag1, some e)
  | (ag1, none) =>
    match choose_action ag1 state waypoint c with
    | (ag2, .error e) => (ag2, some e)
    | (ag2, .ok action) => learn ag2 state action reward

/-- The operations a driver can invoke on the agent after construction
(§6 of the spec): `reset` and `update`. -/
inductive AgentOp where
  | reset (testing : Bool)
  | update (waypoint right left oncoming : Option String)
      (deadline : ℤ) (reward : ℚ) (c : ℕ)

/-- Run one driver operation (the raised exception, if any, is observed
by the driver; the agent keeps its post-raise attributes). -/
noncomputable def runOp (ag : AgentState) : AgentOp → AgentState
  | .reset testing => reset ag testing
  | .update w r l o d rew c => (update ag w r l o d rew c).1

/-- Run a sequence of driver operations. -/
noncomputable def runOps (ag : AgentState) : List AgentOp → AgentState
  | [] => ag
  | op :: ops => runOps (runOp ag op) ops

/-- The mathematical maximum of a row's four values. -/
def max4 (r : QRow) : ℚ := max (max (max r.idle r.forward) r.left) r.right

/-- A hashable state key used as a concrete input in several theorems. -/
def sAny : PyKey := PyKey.tuple none none none none

/-- A second hashable state key. -/
def sInit : PyKey := PyKey.tuple (some "left") none (some "forward") none

/-- A learning agent fresh from the constructor. -/
noncomputable def agInit : AgentState := LearningAgent.init true 1 (1/2)

/-- A learning agent with `epsilon = 1` whose Q-row for `sFwd` has the
single strict maximum at `forward`. -/
def sFwd : PyKey := PyKey.tuple (some "forward") none none (some "left")

/-- See `sFwd`. -/
noncomputable def agEps1 : AgentState :=
  { learning := true, Q := [(sFwd, ⟨0, 5, 0, 0⟩)], epsilon := 1, alpha := 1/2,
    t := 3, state := none, next_waypoint := none }

/-- A non-learning agent used as a concrete input. -/
noncomputable def agPlain : AgentState :=
  { learning := false, Q := [], epsilon := 1/2, alpha := 1/2, t := 0,
    state := none, next_waypoint := none }

/-- A learning agent with `epsilon = 0` whose Q-row for `sAny` has a tie
between `idle` and `forward`. -/
noncomputable def agTie : AgentState :=
  { learning := true, Q := [(sAny, ⟨1, 1, 0, 0⟩)], epsilon := 0, alpha := 1/2,
    t := 0, state := none, next_waypoint := none }

/-- A learning agent holding one Q-row, used for the learn witness. -/
noncomputable def agLearn : AgentState :=
  { learning := true, Q := [(sAny, ⟨1, 2, 3, 4⟩)], epsilon := 0, alpha := 1/2,
    t := 0, state := none, next_waypoint := none }

/- ------------------------------------------------------------------ -/
/- Helper lemmas (shared between the claim theorems below).            -/
/- ------------------------------------------------------------------ -/

lemma coe_step (a b : ℚ) :
    (if (a : WithBot ℚ) < (b : WithBot ℚ) then (b : WithBot ℚ) else (a : WithBot ℚ))
      = ((max a b : ℚ) : WithBot ℚ) := by
  rcases lt_or_le a b with h | h
  · rw [if_pos (WithBot.coe_lt_coe.2 h), max_eq_right h.le]
  · rw [if_neg (fun hc => absurd (WithBot.coe_lt_coe.1 hc) (not_lt.2 h)), max_eq_left h]

lemma pyMax_vals (r : QRow) : pyMax r.vals = ((max4 r : ℚ) : WithBot ℚ) := by
  simp only [pyMax, QRow.vals, List.foldl, max4]
  rw [if_pos (WithBot.bot_lt_coe _), coe_step, coe_step, coe_step]

lemma max4_attained (r : QRow) : ∃ a, r.get a = max4 r := by
  unfold max4
  rcases max_cases (max (max r.idle r.forward) r.left) r.right with ⟨h, _⟩ | ⟨h, _⟩
  · rcases max_cases (max r.idle r.forward) r.left with ⟨h2, _⟩ | ⟨h2, _⟩
    · rcases max_cases r.idle r.forward with ⟨h3, _⟩ | ⟨h3, _⟩
      · exact ⟨.idle, by simp only [QRow.get]; rw [h, h2, h3]⟩
      · exact ⟨.forward, by simp only [QRow.get]; rw [h, h2, h3]⟩
    · exact ⟨.left, by simp only [QRow.get]; rw [h, h2]⟩
  · exact ⟨.right, by simp only [QRow.get]; rw [h]⟩

lemma mem_bestActions (r : QRow) (a : Action) :
    a ∈ bestActions r ↔ r.get a = max4 r := by
  have ha : a ∈ actionOrder := by cases a <;> simp [actionOrder]
  simp only [bestActions, List.mem_filter, ha, true_and, pyMax_vals,
    decide_eq_true_eq, WithBot.coe_inj]
  exact ⟨fun h => h.symm, fun h => h.symm⟩

lemma bestActions_ne_nil (r : QRow) : bestActions r ≠ [] := by
  obtain ⟨a, ha⟩ := max4_attained r
  exact List.ne_nil_of_mem ((mem_bestActions r a).2 ha)

lemma pyChoice_mem (xs : List Action) (c : ℕ) (h : xs ≠ []) : pyChoice xs c ∈ xs := by
  have hlen : 0 < xs.length := List.length_pos.2 h
  have hlt : c % xs.length < xs.length := Nat.mod_lt _ hlen
  rw [pyChoice, List.getD_eq_getElem?_getD, List.getElem?_eq_getElem hlt]
  exact List.getElem_mem _

lemma pyChoice_surj (xs : List Action) (a : Action) (h : a ∈ xs) :
    ∃ c, pyChoice xs c = a := by
  obtain ⟨i, hi, hget⟩ := List.getElem_of_mem h
  refine ⟨i, ?_⟩
  rw [pyChoice, Nat.mod_eq_of_lt hi, List.getD_eq_getElem?_getD,
    List.getElem?_eq_getElem hi, hget, Option.getD_some]

lemma qlookup_qinsert_self (Q : QTable) (s : PyKey) (row : QRow) :
    qlookup (qinsert Q s row) s = some row := by
  induction Q with
  | nil => simp [qinsert, qlookup]
  | cons kv rest ih =>
    obtain ⟨k, v⟩ := kv
    by_cases hk : k = s
    · simp [qinsert, hk, qlookup]
    · simp [qinsert, hk, qlookup, ih]

lemma qinsert_lookup_eq (Q : QTable) (s : PyKey) (row : QRow)
    (h : qlookup Q s = some row) : qinsert Q s row = Q := by
  induction Q with
  | nil => simp [qlookup] at h
  | cons kv rest ih =>
    obtain ⟨k, v⟩ := kv
    by_cases hk : k = s
    · subst hk
      simp [qlookup] at h
      simp [qinsert, h]
    · simp only [qlookup, if_neg hk] at h
      simp [qinsert, hk, ih h]

lemma QRow.get_set_self (r : QRow) (a : Action) (v : ℚ) : (r.set a v).get a = v := by
  cases a <;> rfl

lemma QRow.get_set_ne (r : QRow) (a b : Action) (v : ℚ) (h : b ≠ a) :
    (r.set a v).get b = r.get b := by
  cases a <;> cases b <;> simp_all [QRow.set, QRow.get]

lemma QRow.set_get (r : QRow) (a : Action) : r.set a (r.get a) = r := by
  cases a <;> rfl

lemma choose_action_fst (ag : AgentState) (s : PyKey) (w : Option String) (c : ℕ) :
    (choose_action ag s w c).1 = { ag with state := some s, next_waypoint := w } := by
  unfold choose_action
  rcases hq : qlookup ag.Q s with _ | row <;>
    cases ag.learning <;> cases hs : PyKey.hashable s <;> simp [hq, hs]

lemma update_eq (ag : AgentState) (w r l o : Option String) (d : ℤ) (rew : ℚ) (c : ℕ) :
    update ag w r l o d rew c =
      if ag.learning then (ag, some PyError.typeError)
      else ({ ag with state := some (build_state w r l o d), next_waypoint := w }, none) := by
  cases hL : ag.learning <;>
    simp [update, createQ, build_state, PyKey.hashable, choose_action, learn, hL]

lemma learn_fst_Q_of_alpha_zero (ag : AgentState) (s : PyKey) (a : Action) (r : ℚ)
    (h : ag.alpha = 0) : ((learn ag s a r).1).Q = ag.Q := by
  unfold learn
  cases ag.learning
  · rfl
  · cases hs : PyKey.hashable s
    · simp [hs]
    · rcases hq : qlookup ag.Q s with _ | row
      · simp [hs, hq]
      · simp [hs, hq, h, QRow.set_get, qinsert_lookup_eq ag.Q s row hq]

lemma runOp_alpha_zero (ag : AgentState) (op : AgentOp) (h : ag.alpha = 0) :
    (runOp ag op).alpha = 0 := by
  cases op with
  | reset testing => cases testing <;> simp [runOp, reset, h]
  | update w r l o d rew c =>
    rw [runOp, update_eq]
    cases ag.learning <;> simpa using h

lemma runOps_alpha_zero (ops : List AgentOp) :
    ∀ ag : AgentState, ag.alpha = 0 → (runOps ag ops).alpha = 0 := by
  induction ops with
  | nil => intro ag h; exact h
  | cons op ops ih => intro ag h; exact ih _ (runOp_alpha_zero ag op h)

lemma reset_false_epsilon_of_alpha_zero (b : AgentState) (h : b.alpha = 0) :
    (reset b false).epsilon = 1 := by
  simp [reset, h]

/- ------------------------------------------------------------------ -/
/- Claim theorems.                                                     -/
/- ------------------------------------------------------------------ -/

/-- C1.  The claimed epsilon-greedy selection does not happen: line 84
stores the function object `random.random` in `comp` without calling it,
so no fresh uniform number is drawn and `comp < self.epsilon` is `False`
for every `epsilon` (CPython 2; under Python 3 the comparison would
raise `TypeError`).  Concretely, with `epsilon = 1` — where the claim
demands a uniformly random action from `valid_actions` on every call —
the agent instead returns the unique maximal-Q action `forward` for
every random draw. -/
theorem choose_action_never_explores :
    ∀ c : ℕ, (choose_action agEps1 sFwd (some "forward") c).2 = .ok Action.forward := by
  intro c
  have hb : bestActions ⟨0, 5, 0, 0⟩ = [Action.forward] := by decide
  simp [choose_action, agEps1, sFwd, qlookup, PyKey.hashable, hb, pyChoice, Nat.mod_one]

/-- C2.  `build_state` does not return a hashable 4-tuple: the
comprehension on line 54 turns the tuple of line 52 into a Python list,
which is unhashable, so using it as a Q-table dictionary key raises
`TypeError` (here at `createQ` on a fresh learning agent). -/
theorem build_state_list_unhashable :
    build_state (some "forward") none none (some "left") 20
        = PyKey.list (some "forward") none none (some "left")
      ∧ PyKey.hashable (build_state (some "forward") none none (some "left") 20) = false
      ∧ (createQ agInit (build_state (some "forward") none none (some "left") 20)).2
        = some PyError.typeError := by
  exact ⟨rfl, rfl, rfl⟩

/-- C3.  Lazy single initialization of `createQ`: in learning mode a
first call on an absent (hashable) state inserts the row with the four
actions all `0.0`; any later call on a present state leaves the agent —
and hence all four values — unchanged (idempotence); a non-learning
agent's `createQ` never modifies the Q-table. -/
theorem createQ_lazy_init :
    (∀ ag s, ag.learning = true → PyKey.hashable s = true → qlookup ag.Q s = none →
      (createQ ag s).2 = none ∧
      qlookup ((createQ ag s).1).Q s = some freshRow ∧ ∀ a, freshRow.get a = 0) ∧
    (∀ ag s row, PyKey.hashable s = true → qlookup ag.Q s = some row →
      (createQ ag s).1 = ag ∧ (createQ ag s).2 = none) ∧
    (∀ ag s, ag.learning = false → createQ ag s = (ag, none)) := by
  refine ⟨?_, ?_, ?_⟩
  · intro ag s hl hh hq
    refine ⟨by simp [createQ, hl, hh], ?_, by intro a; cases a <;> rfl⟩
    simp [createQ, hl, hh, hq, qlookup_qinsert_self]
  · intro ag s row hh hq
    unfold createQ
    by_cases hl : ag.learning = true
    · rw [if_pos hl, if_pos hh]
      constructor
      · show { ag with Q := qinsert ag.Q s ((qlookup ag.Q s).getD freshRow) } = ag
        rw [hq, Option.getD_some, qinsert_lookup_eq ag.Q s row hq]
      · rfl
    · rw [if_neg hl]
      exact ⟨rfl, rfl⟩
  · intro ag s hl
    simp [createQ, hl]

/-- Witness for C3 at a concrete agent and state: the first call
initializes, the second call changes nothing. -/
theorem createQ_lazy_init_witness :
    ((createQ agInit sInit).2 = none ∧
      qlookup ((createQ agInit sInit).1).Q sInit = some freshRow ∧
      ∀ a, freshRow.get a = 0) ∧
    ((createQ (createQ agInit sInit).1 sInit).1 = (createQ agInit sInit).1 ∧
      (createQ (createQ agInit sInit).1 sInit).2 = none) :=
  ⟨createQ_lazy_init.1 agInit sInit rfl rfl rfl,
   createQ_lazy_init.2.1 (createQ agInit sInit).1 sInit freshRow rfl rfl⟩

/-- C4.  The learning rule: on an existing entry, learning mode sets
`Q[s][a]` to `old + alpha * (reward - old)` and touches no other action
of the row; the right-hand side mentions only the old value and the
immediate reward — no estimate of future return enters (implicit
discount of zero). -/
theorem learn_td_update :
    ∀ ag s a r row, ag.learning = true → PyKey.hashable s = true →
      qlookup ag.Q s = some row →
      (learn ag s a r).2 = none ∧
      ∃ row', qlookup ((learn ag s a r).1).Q s = some row' ∧
        row'.get a = row.get a + ag.alpha * (r - row.get a) ∧
        ∀ b, b ≠ a → row'.get b = row.get b := by
  intro ag s a r row hl hh hq
  constructor
  · simp [learn, hl, hh, hq]
  · refine ⟨row.set a (row.get a + ag.alpha * (r - row.get a)), ?_,
      QRow.get_set_self _ _ _, fun b hb => QRow.get_set_ne _ _ _ _ hb⟩
    simp [learn, hl, hh, hq, qlookup_qinsert_self]

/-- Witness for C4: a concrete learning step, `alpha = 1/2`, old value
`2`, reward `10`. -/
theorem learn_td_update_witness :
    (learn agLearn sAny Action.forward 10).2 = none ∧
    ∃ row', qlookup ((learn agLearn sAny Action.forward 10).1).Q sAny = some row' ∧
      row'.get Action.forward = QRow.get ⟨1, 2, 3, 4⟩ Action.forward
          + agLearn.alpha * (10 - QRow.get ⟨1, 2, 3, 4⟩ Action.forward) ∧
      ∀ b, b ≠ Action.forward → row'.get b = QRow.get ⟨1, 2, 3, 4⟩ b :=
  learn_td_update agLearn sAny Action.forward 10 ⟨1, 2, 3, 4⟩ rfl rfl rfl

/-- C5.  Testing reset freezes the table: `reset(testing=True)` sets
`epsilon` and `alpha` to `0`, and afterwards every `update()` call
leaves the Q-table completely unchanged.  (In fact `update()` can never
modify the Q-table of any agent: in learning mode the unhashable list
state makes `createQ` raise `TypeError` before any write, and a
non-learning agent never writes by design.) -/
theorem testing_reset_freezes_qtable :
    (∀ ag, (reset ag true).epsilon = 0 ∧ (reset ag true).alpha = 0) ∧
    (∀ ag w r l o d (rew : ℚ) (c : ℕ),
      ((update ag w r l o d rew c).1).Q = ag.Q) := by
  constructor
  · intro ag
    exact ⟨by simp [reset], by simp [reset]⟩
  · intro ag w r l o d rew c
    rw [update_eq]
    cases hL : ag.learning <;> simp [hL]

/-- C7.  A state never passed through `createQ` in learning mode has no
Q-table entry, and both `get_maxQ` and learning-mode `learn` on such a
state fail with the Python `KeyError` of `self.Q[state]`, propagated to
the caller rather than silently defaulted. -/
theorem unseen_state_lookup_error :
    ∀ ag s, PyKey.hashable s = true → qlookup ag.Q s = none →
      get_maxQ ag s = .error .keyError ∧
      (ag.learning = true → ∀ a r, learn ag s a r = (ag, some .keyError)) := by
  intro ag s hh hq
  constructor
  · simp [get_maxQ, hh, hq]
  · intro hl a r
    simp [learn, hl, hh, hq]

/-- Witness for C7: an agent with an empty Q-table. -/
theorem unseen_state_lookup_error_witness :
    get_maxQ agInit sAny = .error .keyError ∧
    learn agInit sAny Action.left 3 = (agInit, some .keyError) :=
  ⟨(unseen_state_lookup_error agInit sAny rfl rfl).1,
   (unseen_state_lookup_error agInit sAny rfl rfl).2 rfl Action.left 3⟩

/-- C8 counterexample.  `choose_action` is not free of side effects on
the agent: it assigns `self.state` (line 79), so after a call on a
fresh agent whose `state` attribute is unset the agent differs from
what it was before the call. -/
theorem choose_action_mutates_agent :
    (choose_action agPlain sAny (some "forward") 0).1 ≠ agPlain := by
  intro h
  have hs := congrArg AgentState.state h
  rw [choose_action_fst] at hs
  simp [agPlain] at hs

/-- C8 amended.  `choose_action` never modifies the Q-table, `epsilon`,
`alpha`, the trial counter or the learning flag, but it does write the
agent's `state` and `next_waypoint` attributes (lines 79-80). -/
theorem choose_action_frame_amended :
    ∀ ag s w c,
      ((choose_action ag s w c).1).Q = ag.Q ∧
      ((choose_action ag s w c).1).epsilon = ag.epsilon ∧
      ((choose_action ag s w c).1).alpha = ag.alpha ∧
      ((choose_action ag s w c).1).t = ag.t ∧
      ((choose_action ag s w c).1).learning = ag.learning ∧
      ((choose_action ag s w c).1).state = some s ∧
      ((choose_action ag s w c).1).next_waypoint = w := by
  intro ag s w c
  rw [choose_action_fst]
  exact ⟨rfl, rfl, rfl, rfl, rfl, rfl, rfl⟩

/-- C9.  Exploitation is maximal with random tie-breaking: in learning
mode (the dead exploration guard never fires, in particular with
`epsilon = 0`), `choose_action` on a state with an entry returns only
actions whose Q-value equals the maximum of the row's four values, and
every action attaining that maximum is returned for some random draw. -/
theorem choose_action_exploitation_argmax :
    ∀ ag s row, ag.learning = true → ag.epsilon = 0 →
      PyKey.hashable s = true → qlookup ag.Q s = some row →
      (∀ w c, ∃ a, (choose_action ag s w c).2 = .ok a ∧ row.get a = max4 row) ∧
      (∀ a, row.get a = max4 row → ∀ w, ∃ c, (choose_action ag s w c).2 = .ok a) := by
  intro ag s row hl _he hh hq
  have hchoose : ∀ w c, (choose_action ag s w c).2 = .ok (pyChoice (bestActions row) c) := by
    intro w c
    simp [choose_action, hl, hh, hq]
  constructor
  · intro w c
    refine ⟨pyChoice (bestActions row) c, hchoose w c, ?_⟩
    exact (mem_bestActions row _).1 (pyChoice_mem _ c (bestActions_ne_nil row))
  · intro a ha w
    obtain ⟨c, hc⟩ := pyChoice_surj (bestActions row) a ((mem_bestActions row a).2 ha)
    exact ⟨c, by rw [hchoose w c, hc]⟩

/-- Witness for C9 on a row where `idle` and `forward` tie for the
maximum: the returned action is always maximal, and both tied actions
occur for suitable draws. -/
theorem choose_action_exploitation_argmax_witness :
    (∃ a, (choose_action agTie sAny none 0).2 = .ok a ∧
      QRow.get ⟨1, 1, 0, 0⟩ a = max4 ⟨1, 1, 0, 0⟩) ∧
    (∃ c, (choose_action agTie sAny none c).2 = .ok Action.idle) ∧
    (∃ c, (choose_action agTie sAny none c).2 = .ok Action.forward) :=
  ⟨(choose_action_exploitation_argmax agTie sAny ⟨1, 1, 0, 0⟩ rfl rfl rfl rfl).1 none 0,
   (choose_action_exploitation_argmax agTie sAny ⟨1, 1, 0, 0⟩ rfl rfl rfl rfl).2
     Action.idle (by decide) none,
   (choose_action_exploitation_argmax agTie sAny ⟨1, 1, 0, 0⟩ rfl rfl rfl rfl).2
     Action.forward (by decide) none⟩

/-- C10.  Once a testing reset has run, `alpha` is `0` and stays `0`
under every further sequence of driver operations; from such a state a
training reset computes `epsilon = |cos (0 * t)| = 1`, and `learn`
leaves the Q-table unchanged whatever the reward. -/
theorem testing_reset_alpha_permanent :
    ∀ (ag : AgentState) (ops : List AgentOp),
      (runOps (reset ag true) ops).alpha = 0 ∧
      (reset (runOps (reset ag true) ops) false).epsilon = 1 ∧
      (∀ s a r, ((learn (runOps (reset ag true) ops) s a r).1).Q
        = (runOps (reset ag true) ops).Q) := by
  intro ag ops
  have h0 : (reset ag true).alpha = 0 := by simp [reset]
  have hz : (runOps (reset ag true) ops).alpha = 0 := runOps_alpha_zero ops _ h0
  exact ⟨hz, reset_false_epsilon_of_alpha_zero _ hz,
    fun s a r => learn_fst_Q_of_alpha_zero _ s a r hz⟩

/- ------------------------------------------------------------------ -/
/- Numeric facts about cos needed for the schedule claim (C6):         -/
/- a degree-8 Taylor approximation of cos with an explicit remainder   -/
/- bound, obtained from the exponential-series tail bound.             -/
/- ------------------------------------------------------------------ -/

open Complex Finset in
lemma sum_nine (x : ℝ) :
    (∑ m ∈ range 9, ((x : ℂ) * I) ^ m / m.factorial)
      + ∑ m ∈ range 9, (-(x : ℂ) * I) ^ m / m.factorial
    = 2 - (x : ℂ) ^ 2 + (x : ℂ) ^ 4 / 12 - (x : ℂ) ^ 6 / 360 + (x : ℂ) ^ 8 / 20160 := by
  have hI2 : (I : ℂ) ^ 2 = -1 := Complex.I_sq
  have hI4 : (I : ℂ) ^ 4 = 1 := by
    rw [(by norm_num : (4 : ℕ) = 2 * 2), pow_mul, hI2, neg_one_sq]
  simp only [sum_range_succ, range_zero, sum_empty, Nat.factorial]
  push_cast
  ring_nf
  rw [hI4, (by rw [(by norm_num : (6 : ℕ) = 2 + 4), pow_add, hI2, hI4] ; ring : (I : ℂ) ^ 6 = -1),
    (by rw [(by norm_num : (8 : ℕ) = 4 + 4), pow_add, hI4] ; ring : (I : ℂ) ^ 8 = 1)]
  ring_nf
  rw [hI2]
  ring

open Complex Finset in
lemma cos_taylor (x : ℝ) (hx : |x| ≤ 1) :
    |Real.cos x - (1 - x ^ 2 / 2 + x ^ 4 / 24 - x ^ 6 / 720 + x ^ 8 / 40320)|
      ≤ |x| ^ 9 * (10 / 3265920) :=
  calc
    |Real.cos x - (1 - x ^ 2 / 2 + x ^ 4 / 24 - x ^ 6 / 720 + x ^ 8 / 40320)|
        = Complex.abs (Complex.cos x
            - (1 - (x : ℂ) ^ 2 / 2 + (x : ℂ) ^ 4 / 24 - (x : ℂ) ^ 6 / 720 + (x : ℂ) ^ 8 / 40320)) := by
      rw [← Complex.abs_ofReal]
      congr 1
      push_cast [Complex.ofReal_cos]
      ring
    _ = Complex.abs (((Complex.exp ((x : ℂ) * I) - ∑ m ∈ range 9, ((x : ℂ) * I) ^ m / m.factorial)
          + (Complex.exp (-(x : ℂ) * I) - ∑ m ∈ range 9, (-(x : ℂ) * I) ^ m / m.factorial)) / 2) := by
      congr 1
      rw [Complex.cos]
      linear_combination ((1 : ℂ) / 2) * sum_nine x
    _ ≤ Complex.abs ((Complex.exp ((x : ℂ) * I)
            - ∑ m ∈ range 9, ((x : ℂ) * I) ^ m / m.factorial) / 2)
        + Complex.abs ((Complex.exp (-(x : ℂ) * I)
            - ∑ m ∈ range 9, (-(x : ℂ) * I) ^ m / m.factorial) / 2) := by
      rw [add_div]
      exact Complex.abs.add_le _ _
    _ = Complex.abs (Complex.exp ((x : ℂ) * I)
            - ∑ m ∈ range 9, ((x : ℂ) * I) ^ m / m.factorial) / 2
        + Complex.abs (Complex.exp (-(x : ℂ) * I)
            - ∑ m ∈ range 9, (-(x : ℂ) * I) ^ m / m.factorial) / 2 := by
      simp [map_div₀]
    _ ≤ Complex.abs ((x : ℂ) * I) ^ 9 * (Nat.succ 9 * ((Nat.factorial 9) * (9 : ℕ) : ℝ)⁻¹) / 2
        + Complex.abs (-(x : ℂ) * I) ^ 9 * (Nat.succ 9 * ((Nat.factorial 9) * (9 : ℕ) : ℝ)⁻¹) / 2 := by
      gcongr
      · exact Complex.exp_bound (by simpa) (by norm_num)
      · exact Complex.exp_bound (by simpa) (by norm_num)
    _ ≤ |x| ^ 9 * (10 / 3265920) := by
      simp only [map_mul, Complex.abs_I, Complex.abs_ofReal, AbsoluteValue.map_neg]
      norm_num [Nat.factorial]

lemma cos_half_near : |Real.cos (1 / 2 : ℝ) - 0.8776| < 1 / 20000 := by
  have h := cos_taylor (1 / 2) (by rw [abs_of_pos (by norm_num : (0 : ℝ) < 1 / 2)] ; norm_num)
  rw [abs_of_pos (by norm_num : (0 : ℝ) < 1 / 2)] at h
  have tri := abs_sub_le (Real.cos (1 / 2 : ℝ))
    (1 - (1 / 2 : ℝ) ^ 2 / 2 + (1 / 2 : ℝ) ^ 4 / 24 - (1 / 2 : ℝ) ^ 6 / 720 + (1 / 2 : ℝ) ^ 8 / 40320)
    (0.8776 : ℝ)
  have hP : |(1 - (1 / 2 : ℝ) ^ 2 / 2 + (1 / 2 : ℝ) ^ 4 / 24 - (1 / 2 : ℝ) ^ 6 / 720
        + (1 / 2 : ℝ) ^ 8 / 40320) - 0.8776|
      = 0.8776 - (1 - (1 / 2 : ℝ) ^ 2 / 2 + (1 / 2 : ℝ) ^ 4 / 24 - (1 / 2 : ℝ) ^ 6 / 720
        + (1 / 2 : ℝ) ^ 8 / 40320) := by
    rw [abs_of_neg (by norm_num)]
    ring
  have hnum : (1 / 2 : ℝ) ^ 9 * (10 / 3265920)
      + (0.8776 - (1 - (1 / 2 : ℝ) ^ 2 / 2 + (1 / 2 : ℝ) ^ 4 / 24 - (1 / 2 : ℝ) ^ 6 / 720
        + (1 / 2 : ℝ) ^ 8 / 40320)) < 1 / 20000 := by norm_num
  linarith [tri, h, hP, hnum]

lemma cos_one_near : |Real.cos (1 : ℝ) - 0.5403| < 1 / 20000 := by
  have h := cos_taylor 1 (by rw [abs_of_pos (by norm_num : (0 : ℝ) < 1)])
  rw [abs_of_pos (by norm_num : (0 : ℝ) < 1)] at h
  have tri := abs_sub_le (Real.cos (1 : ℝ))
    (1 - (1 : ℝ) ^ 2 / 2 + (1 : ℝ) ^ 4 / 24 - (1 : ℝ) ^ 6 / 720 + (1 : ℝ) ^ 8 / 40320)
    (0.5403 : ℝ)
  have hP : |(1 - (1 : ℝ) ^ 2 / 2 + (1 : ℝ) ^ 4 / 24 - (1 : ℝ) ^ 6 / 720
        + (1 : ℝ) ^ 8 / 40320) - 0.5403|
      = (1 - (1 : ℝ) ^ 2 / 2 + (1 : ℝ) ^ 4 / 24 - (1 : ℝ) ^ 6 / 720
        + (1 : ℝ) ^ 8 / 40320) - 0.5403 := by
    rw [abs_of_pos (by norm_num)]
  have hnum : (1 : ℝ) ^ 9 * (10 / 3265920)
      + ((1 - (1 : ℝ) ^ 2 / 2 + (1 : ℝ) ^ 4 / 24 - (1 : ℝ) ^ 6 / 720
        + (1 : ℝ) ^ 8 / 40320) - 0.5403) < 1 / 20000 := by norm_num
  linarith [tri, h, hP, hnum]

/-- C6.  Every non-testing reset increments the trial counter by one,
leaves `alpha` unchanged and sets `epsilon = |cos(alpha * t)|`; with
`alpha = 1/2` and counter `0`, the first training reset gives
`epsilon = |cos 0.5|`, within `0.00005` of `0.8776`, and the second
gives `epsilon = |cos 1|`, within `0.00005` of `0.5403` (both therefore
correct to 4 decimal places). -/
theorem reset_training_schedule :
    (∀ ag : AgentState, (reset ag false).t = ag.t + 1 ∧ (reset ag false).alpha = ag.alpha ∧
      (reset ag false).epsilon = |Real.cos ((ag.alpha : ℝ) * ((ag.t + 1 : ℕ) : ℝ))|) ∧
    (∀ ag : AgentState, ag.alpha = 1 / 2 → ag.t = 0 →
      |(reset ag false).epsilon - 0.8776| < 1 / 20000 ∧
      |(reset (reset ag false) false).epsilon - 0.5403| < 1 / 20000) := by
  constructor
  · intro ag
    exact ⟨by simp [reset], by simp [reset], by simp [reset]⟩
  · intro ag h1 h2
    have hpos2 : (0 : ℝ) < Real.cos (1 / 2 : ℝ) := by
      have := (abs_lt.1 cos_half_near).1
      linarith
    have hpos1 : (0 : ℝ) < Real.cos (1 : ℝ) := by
      have := (abs_lt.1 cos_one_near).1
      linarith
    have e1 : (reset ag false).epsilon = |Real.cos (1 / 2 : ℝ)| := by
      simp only [reset, if_neg (by simp : ¬(false = true)), h1, h2]
      norm_num
    have e2 : (reset (reset ag false) false).epsilon = |Real.cos (1 : ℝ)| := by
      simp only [reset, if_neg (by simp : ¬(false = true)), h1, h2]
      norm_num
    constructor
    · rw [e1, abs_of_pos hpos2]
      exact cos_half_near
    · rw [e2, abs_of_pos hpos1]
      exact cos_one_near

/-- Witness for C6 at the constructor agent (`alpha = 1/2`, `t = 0`). -/
theorem reset_training_schedule_witness :
    |(reset agInit false).epsilon - 0.8776| < 1 / 20000 ∧
    |(reset (reset agInit false) false).epsilon - 0.5403| < 1 / 20000 :=
  reset_training_schedule.2 agInit rfl rfl

end Smartcab
